import Mathlib

/-!
Shallow embedding of the BleLink ESP32 transport
(src/esp32/src/BleLink.cpp and BleLink.h): the frame reassembler
(handleWrite), the content dispatcher (JSON try with raw fallback), the
outbound chunker (sendRaw / sendJson / _sendLine) and the connection
lifecycle (onServerDisconnected, BleLink::loop), together with theorems
checking the natural-language specification against this embedding.

Bytes are modelled as Lean Char values; the structured-document codec
(ArduinoJson) is out of scope for the source and is taken as an opaque
parameter parse : List Char -> Option Doc, as the spec prescribes.
-/

namespace BleLink

/-- The NUL byte, terminator of C strings. -/
def nulChar : Char := Char.ofNat 0

/-- Reading a byte buffer through c_str: content up to the first NUL
byte. Models the conversion String(line.c_str()) performed in
handleWrite (BleLink.cpp line 61) before the raw callback is invoked. -/
def cstrTrunc (l : List Char) : List Char := l.takeWhile (fun c => c ≠ nulChar)

/-- The file-scope globals of BleLink.cpp (g_connected, g_needReinit,
g_rxBuf, plus presence of g_server and g_tx and whether advertising is
active) together with the BleLink member _name. -/
structure LinkState where
  name : List Char
  g_connected : Bool
  g_needReinit : Bool
  g_server : Bool
  g_tx : Bool
  g_advertising : Bool
  g_rxBuf : List Char
deriving DecidableEq, Repr

/-- One pass of the delimiter scan of handleWrite: g_rxBuf.find of a
newline, then substr(0, pos) and erase(0, pos + 1). Returns none when no
newline byte is present (the C++ find returns npos), otherwise the line
before the first newline and the remainder after it. -/
def takeLine : List Char → Option (List Char × List Char)
  | [] => none
  | c :: rest =>
    if c = '\n' then some ([], rest)
    else (takeLine rest).map (fun p => (c :: p.1, p.2))

theorem takeLine_some_length {buf l r : List Char}
    (h : takeLine buf = some (l, r)) : r.length < buf.length := by
  induction buf generalizing l r with
  | nil => simp [takeLine] at h
  | cons c rest ih =>
    by_cases hc : c = '\n'
    · rw [takeLine, if_pos hc] at h
      injection h with h
      injection h with h1 h2
      subst h2
      simp
    · rw [takeLine, if_neg hc] at h
      rcases Option.map_eq_some'.mp h with ⟨⟨a, b⟩, hr, hab⟩
      injection hab with h1 h2
      subst h2
      exact Nat.lt_trans (ih hr) (by simp)

theorem takeLine_eq_none {buf : List Char} :
    takeLine buf = none ↔ '\n' ∉ buf := by
  induction buf with
  | nil => simp [takeLine]
  | cons c rest ih =>
    by_cases hc : c = '\n'
    · subst hc
      simp [takeLine]
    · rw [takeLine, if_neg hc]
      simp [Option.map_eq_none', ih, hc, Ne.symm hc]

theorem takeLine_append_some {x l r : List Char} (y : List Char)
    (h : takeLine x = some (l, r)) :
    takeLine (x ++ y) = some (l, r ++ y) := by
  induction x generalizing l with
  | nil => simp [takeLine] at h
  | cons c rest ih =>
    by_cases hc : c = '\n'
    · rw [takeLine, if_pos hc] at h
      injection h with h
      injection h with h1 h2
      subst h1; subst h2
      simp [takeLine, hc]
    · rw [takeLine, if_neg hc] at h
      rcases Option.map_eq_some'.mp h with ⟨⟨a, b⟩, hr, hab⟩
      injection hab with h1 h2
      subst h1; subst h2
      rw [List.cons_append, takeLine, if_neg hc, ih hr]
      rfl

theorem takeLine_newline_split {l : List Char} (h : '\n' ∉ l)
    (z : List Char) : takeLine (l ++ '\n' :: z) = some (l, z) := by
  induction l with
  | nil => simp [takeLine]
  | cons c cs ih =>
    have hc : c ≠ '\n' := by
      intro e; exact h (by simp [e])
    have hcs : '\n' ∉ cs := fun m => h (by simp [m])
    rw [List.cons_append, takeLine, if_neg hc, ih hcs]
    rfl

/-- The while loop of handleWrite (BleLink.cpp lines 51-54): repeatedly
find a newline in the buffer, emit the bytes before it as a line and
erase them together with the delimiter; stop when no delimiter remains.
Returns the emitted lines in order and the final buffer content. -/
def extractLines (buf : List Char) : List (List Char) × List Char :=
  match h : takeLine buf with
  | none => ([], buf)
  | some (l, r) => (l :: (extractLines r).1, (extractLines r).2)
termination_by buf.length
decreasing_by all_goals exact takeLine_some_length h

theorem extractLines_of_none {buf : List Char} (h : takeLine buf = none) :
    extractLines buf = ([], buf) := by
  rw [extractLines]
  split
  · rfl
  · next l r heq => rw [h] at heq; cases heq

theorem extractLines_of_some {buf l r : List Char}
    (h : takeLine buf = some (l, r)) :
    extractLines buf = (l :: (extractLines r).1, (extractLines r).2) := by
  rw [extractLines]
  split
  · next heq => rw [h] at heq; cases heq
  · next l' r' heq =>
    rw [h] at heq
    injection heq with heq
    injection heq with h1 h2
    subst h1; subst h2
    rfl

theorem extractLines_no_newline {buf : List Char} (h : '\n' ∉ buf) :
    extractLines buf = ([], buf) :=
  extractLines_of_none (takeLine_eq_none.mpr h)

theorem extractLines_rest_no_newline (buf : List Char) :
    '\n' ∉ (extractLines buf).2 := by
  induction buf using extractLines.induct with
  | case1 buf h =>
    rw [extractLines_of_none h]
    exact takeLine_eq_none.mp h
  | case2 buf l r h ih =>
    rw [extractLines_of_some h]
    exact ih

theorem extractLines_append (x : List Char) : ∀ y : List Char,
    extractLines (x ++ y) =
      ((extractLines x).1 ++ (extractLines ((extractLines x).2 ++ y)).1,
       (extractLines ((extractLines x).2 ++ y)).2) := by
  induction x using extractLines.induct with
  | case1 buf h =>
    intro y
    rw [extractLines_of_none h]
    simp
  | case2 buf l r h ih =>
    intro y
    rw [extractLines_of_some h,
      extractLines_of_some (takeLine_append_some y h), ih y]
    simp

theorem extractLines_terminated (lines : List (List Char))
    (h : ∀ l ∈ lines, '\n' ∉ l) :
    extractLines ((lines.map (fun l => l ++ ['\n'])).flatten) = (lines, []) := by
  induction lines with
  | nil =>
    simpa using @extractLines_no_newline [] (by simp)
  | cons l ls ih =>
    have h1 : '\n' ∉ l := h l (by simp)
    have h2 : ∀ m ∈ ls, '\n' ∉ m := fun m hm => h m (by simp [hm])
    have hjoin : (((l :: ls).map (fun l => l ++ ['\n'])).flatten) =
        l ++ '\n' :: ((ls.map (fun l => l ++ ['\n'])).flatten) := by
      simp
    rw [hjoin, extractLines_of_some (takeLine_newline_split h1 _), ih h2]

/-- The characteristic write handler (BleLink.cpp lines 42-64), restricted
to its reassembly effect: an empty chunk returns at once; otherwise the
chunk is appended to g_rxBuf and all complete lines are extracted. The
source dispatches each line as it is extracted; since dispatch never
touches the buffer, the emitted lines are returned as a list. -/
def handleWrite (st : LinkState) (chunk : List Char) :
    LinkState × List (List Char) :=
  if chunk = [] then (st, [])
  else
    ({ st with g_rxBuf := (extractLines (st.g_rxBuf ++ chunk)).2 },
     (extractLines (st.g_rxBuf ++ chunk)).1)

/-- Feeding a sequence of inbound chunks through handleWrite one at a
time, collecting every emitted line in order. -/
def feedChunks : LinkState → List (List Char) → LinkState × List (List Char)
  | st, [] => (st, [])
  | st, c :: cs =>
    ((feedChunks (handleWrite st c).1 cs).1,
     (handleWrite st c).2 ++ (feedChunks (handleWrite st c).1 cs).2)

theorem feedChunks_extract (chunks : List (List Char)) :
    ∀ st : LinkState, '\n' ∉ st.g_rxBuf → (∀ c ∈ chunks, c ≠ []) →
    feedChunks st chunks =
      ({ st with g_rxBuf := (extractLines (st.g_rxBuf ++ chunks.flatten)).2 },
       (extractLines (st.g_rxBuf ++ chunks.flatten)).1) := by
  induction chunks with
  | nil =>
    intro st h _
    rw [feedChunks]
    simp [extractLines_no_newline h]
  | cons c cs ih =>
    intro st h hne
    have hc : c ≠ [] := hne c (by simp)
    have hcs : ∀ d ∈ cs, d ≠ [] := fun d hd => hne d (by simp [hd])
    have hrest : '\n' ∉ (extractLines (st.g_rxBuf ++ c)).2 :=
      extractLines_rest_no_newline _
    rw [feedChunks]
    rw [handleWrite, if_neg hc]
    rw [ih _ hrest hcs]
    have hassoc : st.g_rxBuf ++ (c :: cs).flatten =
        (st.g_rxBuf ++ c) ++ cs.flatten := by
      simp
    rw [hassoc, extractLines_append (st.g_rxBuf ++ c) cs.flatten]

/-! Content dispatcher: the JSON try of handleWrite (lines 55-62). The
structured-document codec is the external ArduinoJson library, taken as
an opaque parameter parse; on success the parsed document is emitted, on
failure the line is passed through the Arduino String constructor (which
truncates at the first NUL byte, as c_str does) to the raw path. -/

/-- What handleWrite emits for one extracted line. -/
inductive Emit (Doc : Type) where
  | json : Doc → Emit Doc
  | raw : List Char → Emit Doc
deriving DecidableEq, Repr

/-- The per-line branch of handleWrite (BleLink.cpp lines 55-62):
deserializeJson on the whole line; on success emitJson(doc), on any
failure emitRaw(String(line.c_str())). -/
def dispatch {Doc : Type} (parse : List Char → Option Doc)
    (line : List Char) : Emit Doc :=
  match parse line with
  | some d => Emit.json d
  | none => Emit.raw (cstrTrunc line)

/-- A recorded invocation of a registered application handler. -/
inductive HandlerCall (Doc : Type) where
  | structured : Doc → HandlerCall Doc
  | raw : List Char → HandlerCall Doc
deriving DecidableEq, Repr

/-- BleLink::_emitJson and BleLink::_emitRaw (lines 134-135): the
callback fires only when registered; the list collects the handler
invocations produced for one emitted value. -/
def deliver {Doc : Type} (jsonReg rawReg : Bool) (e : Emit Doc) :
    List (HandlerCall Doc) :=
  match e with
  | Emit.json d => if jsonReg then [HandlerCall.structured d] else []
  | Emit.raw t => if rawReg then [HandlerCall.raw t] else []

/-! Connection lifecycle (onServerDisconnected, BleLink::loop,
BleLink::_initializeBLE). -/

/-- Wrap-around subtraction of uint32 millisecond counters, as computed
by millis() - lastDisc in C. -/
def u32sub (a b : Nat) : Nat := ((a % 2 ^ 32) + 2 ^ 32 - b % 2 ^ 32) % 2 ^ 32

/-- BleLink::_initializeBLE (lines 137-163): rebuilds server, service and
characteristics and starts advertising; the device name is read but not
written. -/
def initializeBLE (st : LinkState) : LinkState :=
  { st with g_server := true, g_tx := true, g_advertising := true }

/-- NimBLEDevice::deinit as invoked from BleLink::loop: tears down the
stack objects and stops advertising. -/
def deinitBLE (st : LinkState) : LinkState :=
  { st with g_server := false, g_tx := false, g_advertising := false }

/-- onServerDisconnected (BleLink.cpp lines 30-40): debounced by the
static lastDisc timestamp; past the debounce it clears g_connected and
g_rxBuf, restarts advertising and sets g_needReinit. Returns the new
state and the updated lastDisc. -/
def onServerDisconnected (now lastDisc : Nat) (st : LinkState) :
    LinkState × Nat :=
  if u32sub now lastDisc < 300 then (st, lastDisc)
  else
    ({ st with g_connected := false, g_rxBuf := [],
               g_advertising := true, g_needReinit := true }, now)

/-- First half of BleLink::loop (lines 98-102): the silent-disconnect
health check. count is the stack's connected-peer count, queried only
when a server object exists. -/
def healthCheck (st : LinkState) (count : Nat) : LinkState :=
  if st.g_connected && st.g_server && count == 0 then
    { st with g_connected := false, g_needReinit := true }
  else st

/-- Second half of BleLink::loop (lines 103-109): when g_needReinit is
set, clear it, deinit the stack and reinitialize from scratch. -/
def reinitStep (st : LinkState) : LinkState :=
  if st.g_needReinit then
    initializeBLE (deinitBLE { st with g_needReinit := false })
  else st

/-- BleLink::loop (lines 97-110): health check followed by the pending
reinitialization. -/
def loop (st : LinkState) (count : Nat) : LinkState :=
  reinitStep (healthCheck st count)

/-! Outbound chunker (sendRaw, sendJson, _sendLine). -/

/-- The fragment loop of BleLink::_sendLine (lines 170-175): successive
notify payloads of at most CHUNK = 20 bytes covering the line. -/
def fragments : List Char → List (List Char)
  | [] => []
  | c :: rest => ((c :: rest).take 20) :: fragments ((c :: rest).drop 20)
termination_by s => s.length
decreasing_by simp; omega

/-- BleLink::_sendLine (lines 165-176): returns at once when not
connected, when no TX characteristic exists or when the pointer is null;
otherwise notifies the 20-byte fragments in order. No field of the link
state is assigned, so the state is returned unchanged. -/
def sendLine (st : LinkState) (cstr : Option (List Char)) :
    LinkState × List (List Char) :=
  match cstr with
  | none => (st, [])
  | some s => if st.g_connected && st.g_tx then (st, fragments s) else (st, [])

/-- The framing step shared by sendRaw and sendJson: append a trailing
newline unless the text already ends with one (String::endsWith). -/
def frameLine (s : List Char) : List Char :=
  if s.getLast? = some '\n' then s else s ++ ['\n']

/-- BleLink::sendRaw (lines 124-129): null pointer returns at once;
otherwise frame the text and delegate to _sendLine. -/
def sendRaw (st : LinkState) (cstr : Option (List Char)) :
    LinkState × List (List Char) :=
  match cstr with
  | none => (st, [])
  | some s => sendLine st (some (frameLine s))

/-- BleLink::sendJson (lines 118-122): serialize the document (opaque
external codec), frame and delegate to _sendLine. -/
def sendJson {Doc : Type} (serialize : Doc → List Char) (st : LinkState)
    (d : Doc) : LinkState × List (List Char) :=
  sendLine st (some (frameLine (serialize d)))

/-- The BleLink constructor (lines 90-93): _name is a 32-byte array
zero-initialized in the header, filled by strncpy(_name, deviceName, 31)
and explicitly terminated at index 31. The result is the full 32-byte
array content for a NUL-free argument string. -/
def ctorName (deviceName : List Char) : List Char :=
  deviceName.take 31 ++
    List.replicate (31 - min deviceName.length 31) nulChar ++ [nulChar]

/-! Auxiliary lemmas for the outbound chunker and the name buffer. -/

theorem fragments_ne_nil {s : List Char} (h : s ≠ []) :
    fragments s = s.take 20 :: fragments (s.drop 20) := by
  cases s with
  | nil => exact absurd rfl h
  | cons c rest => rw [fragments]

theorem fragments_flatten (s : List Char) : (fragments s).flatten = s := by
  induction s using fragments.induct with
  | case1 => rw [fragments]; rfl
  | case2 c rest ih =>
    rw [fragments]
    simp only [List.flatten_cons, ih, List.take_append_drop]

theorem fragments_mem {s f : List Char} (h : f ∈ fragments s) :
    f.length ≤ 20 ∧ f ≠ [] := by
  induction s using fragments.induct with
  | case1 => rw [fragments] at h; cases h
  | case2 c rest ih =>
    rw [fragments] at h
    rcases List.mem_cons.mp h with h1 | h2
    · subst h1
      refine ⟨by simp [List.length_take], by simp⟩
    · exact ih h2

theorem fragments_map_length_47 {s : List Char} (h : s.length = 47) :
    (fragments s).map List.length = [20, 20, 7] := by
  have h0 : s ≠ [] := by
    intro e; rw [e] at h; simp at h
  have e1 : (s.drop 20).length = 27 := by rw [List.length_drop, h]
  have h1 : s.drop 20 ≠ [] := by
    intro e; rw [e] at e1; simp at e1
  have e2 : ((s.drop 20).drop 20).length = 7 := by rw [List.length_drop, e1]
  have h2 : (s.drop 20).drop 20 ≠ [] := by
    intro e; rw [e] at e2; simp at e2
  have e3 : (((s.drop 20).drop 20).drop 20).length = 0 := by
    rw [List.length_drop, e2]
  have h3 : ((s.drop 20).drop 20).drop 20 = [] := by
    exact List.length_eq_zero.mp e3
  rw [fragments_ne_nil h0, fragments_ne_nil h1, fragments_ne_nil h2, h3,
    fragments]
  simp [List.length_take, h, e1, e2]

theorem takeWhile_append_sat {α : Type} (p : α → Bool) (l₁ l₂ : List α)
    (h : ∀ x ∈ l₁, p x = true) :
    (l₁ ++ l₂).takeWhile p = l₁ ++ l₂.takeWhile p := by
  induction l₁ with
  | nil => simp
  | cons a l ih =>
    have ha : p a = true := h a (by simp)
    have hl : ∀ x ∈ l, p x = true := fun x hx => h x (by simp [hx])
    simp [List.takeWhile_cons, ha, ih hl]

theorem healthCheck_name (st : LinkState) (count : Nat) :
    (healthCheck st count).name = st.name := by
  rw [healthCheck]; split <;> rfl

theorem reinitStep_name (st : LinkState) :
    (reinitStep st).name = st.name := by
  rw [reinitStep]; split <;> rfl

theorem loop_name (st : LinkState) (count : Nat) :
    (loop st count).name = st.name := by
  rw [loop, reinitStep_name, healthCheck_name]

theorem onServerDisconnected_name (now lastDisc : Nat) (st : LinkState) :
    (onServerDisconnected now lastDisc st).1.name = st.name := by
  rw [onServerDisconnected]; split <;> rfl

theorem sendRaw_fst (st : LinkState) (c : Option (List Char)) :
    (sendRaw st c).1 = st := by
  cases c with
  | none => rfl
  | some s =>
    rw [sendRaw, sendLine]
    split <;> rfl

/-! Claim theorems. -/

/-- C1: for every sequence of non-empty inbound chunks whose
concatenation is L1 newline L2 newline ... Ln newline with no other
newline bytes, feeding the chunks one at a time to the handleWrite
reassembly loop emits exactly the lines L1, ..., Ln in that order,
regardless of how the byte stream is split, and leaves the receive
buffer empty afterwards. -/
theorem reassembly_exact (st : LinkState) (chunks lines : List (List Char))
    (hbuf : st.g_rxBuf = [])
    (hne : ∀ c ∈ chunks, c ≠ [])
    (hnl : ∀ l ∈ lines, '\n' ∉ l)
    (hcat : chunks.flatten = (lines.map (fun l => l ++ ['\n'])).flatten) :
    (feedChunks st chunks).2 = lines ∧
    (feedChunks st chunks).1.g_rxBuf = [] := by
  have h0 : '\n' ∉ st.g_rxBuf := by rw [hbuf]; simp
  rw [feedChunks_extract chunks st h0 hne]
  simp [hbuf, hcat, extractLines_terminated lines hnl]

/-- Witness for C1: the stream a, newline b, newline fed in three chunks
yields the two lines a and b and an empty buffer. -/
theorem reassembly_exact_witness :
    (feedChunks ⟨[], false, false, false, false, false, []⟩
        [['a'], ['\n', 'b'], ['\n']]).2 = [['a'], ['b']] ∧
    (feedChunks ⟨[], false, false, false, false, false, []⟩
        [['a'], ['\n', 'b'], ['\n']]).1.g_rxBuf = [] :=
  reassembly_exact _ _ [['a'], ['b']] rfl (by decide) (by decide) rfl

/-- C3 counterexample: a line holding an embedded NUL byte whose parse
fails is handed to the raw path truncated at the NUL by the
String(line.c_str()) conversion, so the raw handler does not receive the
original unmodified line text. -/
theorem dispatch_raw_truncated :
    dispatch (fun _ => (none : Option Unit)) ['a', nulChar, 'b'] =
      Emit.raw ['a'] ∧
    (['a'] : List Char) ≠ ['a', nulChar, 'b'] := by
  exact ⟨by decide, by decide⟩

/-- C3 (amended): for every line, dispatch chooses exactly one of the
two variants — the structured one with the parsed document on parse
success, the raw one on parse failure — and the raw payload is the line
text truncated at the first NUL byte, which equals the original line
whenever the line holds no NUL; a handler registered for the chosen
variant is always the single one invoked, and a parse failure yields a
raw delivery rather than an error. -/
theorem dispatch_exclusive {Doc : Type} (parse : List Char → Option Doc)
    (line : List Char) (jsonReg rawReg : Bool) :
    (∀ d, parse line = some d → dispatch parse line = Emit.json d) ∧
    (parse line = none → dispatch parse line = Emit.raw (cstrTrunc line)) ∧
    (∀ d t, ¬(dispatch parse line = Emit.json d ∧
              dispatch parse line = Emit.raw t)) ∧
    (∀ d, dispatch parse line = Emit.json d →
      deliver jsonReg rawReg (dispatch parse line) =
        if jsonReg then [HandlerCall.structured d] else []) ∧
    (∀ t, dispatch parse line = Emit.raw t →
      deliver jsonReg rawReg (dispatch parse line) =
        if rawReg then [HandlerCall.raw t] else []) ∧
    (nulChar ∉ line → parse line = none →
      dispatch parse line = Emit.raw line) := by
  refine ⟨?_, ?_, ?_, ?_, ?_, ?_⟩
  · intro d h; simp [dispatch, h]
  · intro h; simp [dispatch, h]
  · rintro d t ⟨h1, h2⟩
    rw [h1] at h2
    cases h2
  · intro d h; rw [h]; rfl
  · intro t h; rw [h]; rfl
  · intro hn hp
    have : cstrTrunc line = line := by
      rw [cstrTrunc]
      rw [List.takeWhile_eq_self_iff.mpr]
      intro x hx
      simp only [decide_eq_true_eq]
      intro e; rw [e] at hx; exact hn hx
    simp [dispatch, hp, this]

/-- Witness for C3 (amended) at a NUL-free line with a failing parse:
the raw path receives the original line. -/
theorem dispatch_exclusive_witness :
    dispatch (fun _ => (none : Option Unit)) ['P'] = Emit.raw ['P'] :=
  (dispatch_exclusive (fun _ => (none : Option Unit)) ['P'] true
    true).2.2.2.2.2 (by decide) rfl

/-- C8: a newline as the very first buffered byte makes the reassembly
loop emit an empty line, which is forwarded to dispatch and — because an
empty line does not parse as a structured document — reaches the raw
path; the reassembler never suppresses it. -/
theorem empty_line_forwarded {Doc : Type} (parse : List Char → Option Doc)
    (rest : List Char) (hparse : parse [] = none) :
    (extractLines ('\n' :: rest)).1 = [] :: (extractLines rest).1 ∧
    dispatch parse [] = Emit.raw [] := by
  constructor
  · rw [@extractLines_of_some ('\n' :: rest) [] rest (by rw [takeLine]; simp)]
  · simp [dispatch, hparse, cstrTrunc]

/-- Witness for C8 at the buffer newline a with a parse that rejects the
empty line. -/
theorem empty_line_forwarded_witness :
    (extractLines ('\n' :: ['a'])).1 = [] :: (extractLines ['a']).1 ∧
    dispatch (fun _ => (none : Option Unit)) [] = Emit.raw [] :=
  empty_line_forwarded (fun _ => (none : Option Unit)) ['a'] rfl

/-- C2 counterexample: entering Disconnected-Pending-Reinit through the
health check (a silent disconnect observed by the poll) leaves the
receive buffer untouched: the leftover byte x survives the whole poll,
and the next session's first chunk y newline is reassembled into the
spliced line xy. -/
theorem healthCheck_keeps_buffer :
    (healthCheck ⟨[], true, false, true, true, false, ['x']⟩
        0).g_needReinit = true ∧
    (healthCheck ⟨[], true, false, true, true, false, ['x']⟩
        0).g_connected = false ∧
    (healthCheck ⟨[], true, false, true, true, false, ['x']⟩
        0).g_rxBuf = ['x'] ∧
    (loop ⟨[], true, false, true, true, false, ['x']⟩ 0).g_rxBuf = ['x'] ∧
    (handleWrite (loop ⟨[], true, false, true, true, false, ['x']⟩ 0)
        ['y', '\n']).2 = [['x', 'y']] := by
  refine ⟨rfl, rfl, rfl, rfl, ?_⟩
  have h1 : extractLines ['x', 'y', '\n'] = ([['x', 'y']], []) := by
    simpa using extractLines_terminated [['x', 'y']] (by decide)
  have hbuf : (loop ⟨[], true, false, true, true, false, ['x']⟩
      0).g_rxBuf = ['x'] := rfl
  rw [handleWrite, if_neg (by simp), hbuf]
  simp [h1]

/-- C2 (amended): entry to Disconnected-Pending-Reinit through the
stack's disconnect callback (outside the debounce window) clears the
receive buffer, restarts advertising immediately and sets the reinit
flag; entry through the periodic health check clears the Connected flag
and sets the reinit flag but does not clear the receive buffer
(advertising is restarted by the reinit step of the same poll), so only
a callback-observed disconnect guarantees that a subsequent connection's
first chunk is free of pre-disconnect leftover bytes. -/
theorem disconnect_entry (now lastDisc : Nat) (st : LinkState)
    (hdb : ¬ u32sub now lastDisc < 300)
    (hc : st.g_connected = true) (hs : st.g_server = true) :
    (onServerDisconnected now lastDisc st).1.g_rxBuf = [] ∧
    (onServerDisconnected now lastDisc st).1.g_advertising = true ∧
    (onServerDisconnected now lastDisc st).1.g_needReinit = true ∧
    (onServerDisconnected now lastDisc st).1.g_connected = false ∧
    (healthCheck st 0).g_connected = false ∧
    (healthCheck st 0).g_needReinit = true ∧
    (healthCheck st 0).g_rxBuf = st.g_rxBuf ∧
    (loop st 0).g_advertising = true := by
  rw [onServerDisconnected, if_neg hdb]
  have hhc : healthCheck st 0 =
      { st with g_connected := false, g_needReinit := true } := by
    rw [healthCheck]
    simp [hc, hs]
  refine ⟨rfl, rfl, rfl, rfl, by rw [hhc], by rw [hhc], by rw [hhc], ?_⟩
  rw [loop, hhc, reinitStep]
  simp [initializeBLE, deinitBLE]

/-- Witness for C2 (amended): a disconnect callback 1000 ms after the
previous one, on a connected state with a buffered byte, clears the
receive buffer. -/
theorem disconnect_entry_witness :
    (onServerDisconnected 1000 0
        ⟨[], true, false, true, true, false, ['z']⟩).1.g_rxBuf = [] :=
  (disconnect_entry 1000 0 ⟨[], true, false, true, true, false, ['z']⟩
    (by decide) rfl rfl).1

/-- C4: when connected with a live TX characteristic, a sent line is
split into notify fragments of at most 20 bytes each, transmitted in
order and covering the line exactly once; a 47-byte line yields exactly
the fragment sizes 20, 20 and 7, and no link state changes. -/
theorem sendLine_fragments (st : LinkState) (line : List Char)
    (hc : st.g_connected = true) (ht : st.g_tx = true) :
    ((sendLine st (some line)).2).flatten = line ∧
    (∀ f ∈ (sendLine st (some line)).2, f.length ≤ 20 ∧ f ≠ []) ∧
    (line.length = 47 →
      ((sendLine st (some line)).2).map List.length = [20, 20, 7]) ∧
    (sendLine st (some line)).1 = st := by
  have hsl : sendLine st (some line) = (st, fragments line) := by
    rw [sendLine]
    simp [hc, ht]
  rw [hsl]
  exact ⟨fragments_flatten line, fun f hf => fragments_mem hf,
    fun h47 => fragments_map_length_47 h47, rfl⟩

/-- Witness for C4 at a 47-byte line on a connected state: fragment
sizes 20, 20, 7. -/
theorem sendLine_fragments_witness :
    ((sendLine ⟨[], true, false, true, true, false, []⟩
        (some (List.replicate 47 'a'))).2).map List.length = [20, 20, 7] :=
  (sendLine_fragments ⟨[], true, false, true, true, false, []⟩
    (List.replicate 47 'a') rfl rfl).2.2.1 (by simp)

/-- C5: a send issued while the link is not Connected transmits zero
fragments and returns the state unchanged, for sendRaw on any input and
for sendJson on any document; nothing is queued and no error arises. -/
theorem send_gating {Doc : Type} (st : LinkState) (c : Option (List Char))
    (serialize : Doc → List Char) (d : Doc)
    (h : st.g_connected = false) :
    sendRaw st c = (st, []) ∧ sendJson serialize st d = (st, []) := by
  constructor
  · cases c with
    | none => rfl
    | some s =>
      rw [sendRaw, sendLine]
      simp [h]
  · rw [sendJson, sendLine]
    simp [h]

/-- Witness for C5 on a disconnected state: both send operations drop
their payload. -/
theorem send_gating_witness :
    sendRaw ⟨[], false, false, true, true, true, []⟩ (some ['a']) =
      (⟨[], false, false, true, true, true, []⟩, []) ∧
    sendJson (fun _ : Unit => ['b'])
        ⟨[], false, false, true, true, true, []⟩ () =
      (⟨[], false, false, true, true, true, []⟩, []) :=
  send_gating ⟨[], false, false, true, true, true, []⟩ (some ['a'])
    (fun _ : Unit => ['b']) () rfl

/-- C6: a poll that observes zero connected peers from the stack while
the local state is Connected transitions the lifecycle to
Disconnected-Pending-Reinit — the health check clears the Connected flag
and sets the reinit flag — and the state is never Connected after such a
poll. -/
theorem silent_disconnect_detected (st : LinkState) (count : Nat)
    (hc : st.g_connected = true) (hs : st.g_server = true)
    (hz : count = 0) :
    (healthCheck st count).g_connected = false ∧
    (healthCheck st count).g_needReinit = true ∧
    (loop st count).g_connected = false := by
  subst hz
  have hhc : healthCheck st 0 =
      { st with g_connected := false, g_needReinit := true } := by
    rw [healthCheck]
    simp [hc, hs]
  refine ⟨by rw [hhc], by rw [hhc], ?_⟩
  rw [loop, hhc, reinitStep]
  simp [initializeBLE, deinitBLE]

/-- Witness for C6 on a connected state polled with zero peers. -/
theorem silent_disconnect_detected_witness :
    (healthCheck ⟨[], true, false, true, true, false, []⟩ 0).g_connected =
      false :=
  (silent_disconnect_detected ⟨[], true, false, true, true, false, []⟩ 0
    rfl rfl rfl).1

/-- C7: outbound framing is idempotent — the framed text always ends in
the newline delimiter, an input already ending in the delimiter is
passed through unchanged, one delimiter is appended otherwise, framing
twice equals framing once, and the bytes a connected sendRaw or sendJson
transmits are exactly the framed text. -/
theorem framing_idempotent {Doc : Type} (s : List Char)
    (serialize : Doc → List Char) (d : Doc) (st : LinkState)
    (hc : st.g_connected = true) (ht : st.g_tx = true) :
    (frameLine s).getLast? = some '\n' ∧
    frameLine (frameLine s) = frameLine s ∧
    (s.getLast? = some '\n' → frameLine s = s) ∧
    (s.getLast? ≠ some '\n' → frameLine s = s ++ ['\n']) ∧
    ((sendRaw st (some s)).2).flatten = frameLine s ∧
    ((sendJson serialize st d).2).flatten = frameLine (serialize d) := by
  have hlast : ∀ t : List Char, (frameLine t).getLast? = some '\n' := by
    intro t
    rw [frameLine]
    split
    · next h => exact h
    · simp
  refine ⟨hlast s, ?_, ?_, ?_, ?_, ?_⟩
  · show (if (frameLine s).getLast? = some '\n' then frameLine s
      else frameLine s ++ ['\n']) = frameLine s
    rw [if_pos (hlast s)]
  · intro h; rw [frameLine, if_pos h]
  · intro h; rw [frameLine, if_neg h]
  · rw [sendRaw, sendLine]
    simp [hc, ht, fragments_flatten]
  · rw [sendJson, sendLine]
    simp [hc, ht, fragments_flatten]

/-- Witness for C7 at the one-byte text a: framing appends exactly one
newline. -/
theorem framing_idempotent_witness :
    frameLine ['a'] = ['a'] ++ ['\n'] :=
  (framing_idempotent ['a'] (fun _ : Unit => []) ()
    ⟨[], true, false, true, true, false, []⟩ rfl rfl).2.2.2.1 (by decide)

/-- C9: the link identity stored by the constructor is a 32-byte buffer
that is always NUL terminated, whose C-string content is the argument
truncated to at most 31 bytes — also for arguments longer than 31
bytes — and no modelled operation after construction writes to it. -/
theorem name_bounded (deviceName : List Char) (hsrc : nulChar ∉ deviceName) :
    (ctorName deviceName).length = 32 ∧
    nulChar ∈ ctorName deviceName ∧
    cstrTrunc (ctorName deviceName) = deviceName.take 31 ∧
    (cstrTrunc (ctorName deviceName)).length ≤ 31 ∧
    (∀ st chunk, st.name = ctorName deviceName →
      (handleWrite st chunk).1.name = ctorName deviceName) ∧
    (∀ st count, st.name = ctorName deviceName →
      (loop st count).name = ctorName deviceName) ∧
    (∀ st now lastDisc, st.name = ctorName deviceName →
      (onServerDisconnected now lastDisc st).1.name = ctorName deviceName) ∧
    (∀ st c, st.name = ctorName deviceName →
      (sendRaw st c).1.name = ctorName deviceName) := by
  have htrunc : cstrTrunc (ctorName deviceName) = deviceName.take 31 := by
    rw [cstrTrunc, ctorName, List.append_assoc]
    rw [takeWhile_append_sat _ _ _ ?_]
    · have hzero : ∀ k : Nat,
          (List.replicate k nulChar ++ [nulChar]).takeWhile
            (fun c => c ≠ nulChar) = [] := by
        intro k
        cases k with
        | zero => simp [List.takeWhile_cons]
        | succ n => simp [List.replicate_succ, List.takeWhile_cons]
      rw [hzero]
      simp
    · intro x hx
      simp only [decide_eq_true_eq]
      intro e
      rw [e] at hx
      exact hsrc (List.take_subset 31 deviceName hx)
  refine ⟨?_, ?_, htrunc, ?_, ?_, ?_, ?_, ?_⟩
  · rw [ctorName]
    simp [List.length_take]
    omega
  · rw [ctorName]
    simp
  · rw [htrunc]
    simp [List.length_take]
  · intro st chunk h
    by_cases hc : chunk = [] <;> simp [handleWrite, hc, h]
  · intro st count h
    rw [loop_name, h]
  · intro st now lastDisc h
    rw [onServerDisconnected_name, h]
  · intro st c h
    rw [sendRaw_fst, h]

/-- Witness for C9 at a 40-byte argument: the stored buffer is exactly
32 bytes. -/
theorem name_bounded_witness :
    (ctorName (List.replicate 40 'a')).length = 32 :=
  (name_bounded (List.replicate 40 'a') (by decide)).1

/-- C10: sendRaw invoked with a null pointer is a total no-op in every
state — no fragment is transmitted, no delimiter is appended and the
state is returned unchanged. -/
theorem sendRaw_null_noop (st : LinkState) : sendRaw st none = (st, []) :=
  rfl

end BleLink
